import Mathlib

/-!
Verification of the concurrent streaming transfer engine in `src/app.py`:
a shallow embedding of the key mapper, the retry loop of
`transfer_object_streaming`, and the submit/collect structure of `main`,
together with proofs of the specified properties.
-/

set_option maxHeartbeats 1000000

namespace TransferApp

/-- The literal string "dentons_01", as a character list: the `from` part of
the rewrite on line 41 of `src/app.py`. -/
def dentons : List Char := "dentons_01".toList

/-- The literal string "bl_01", as a character list: the `to` part of the
rewrite on line 41 of `src/app.py`. -/
def bl : List Char := "bl_01".toList

/-- Embedding of Python `s.replace(old, new, 1)` on character lists: replace
the leftmost occurrence of `old` in `s` with `new`; if `old` does not occur,
return `s` unchanged. -/
def replaceFirst (old new : List Char) : List Char → List Char
  | [] => if old.isPrefixOf ([] : List Char) then new ++ [] else []
  | c :: rest =>
    if old.isPrefixOf (c :: rest) then new ++ (c :: rest).drop old.length
    else c :: replaceFirst old new rest

/-- The key mapping computed on line 41 of `src/app.py`:
`new_key = obj_key.replace("dentons_01", "bl_01", 1)`, on character lists. -/
def mapKeyL (k : List Char) : List Char := replaceFirst dentons bl k

/-- The same key mapping on strings. -/
def mapKey (k : String) : String := String.mk (mapKeyL k.toList)

/-- Result of one attempt body of the worker (the `get_object` then
`upload_fileobj` pair inside the `try` on lines 43-57): the attempt completes
(`ok`), a step raises `botocore` `ClientError` (`clientError`), or a step
raises an exception of any other type (`other`). -/
inductive AttemptRes where
  | ok : AttemptRes
  | clientError : AttemptRes
  | other : AttemptRes
deriving DecidableEq

/-- The retry loop of `transfer_object_streaming` (lines 42-61) over an
explicit list of attempt numbers, mirroring
`for attempt in range(1, max_retries + 1)`. `f` gives each attempt's result.
Returns `.error ()` when a non-ClientError exception escapes the function,
`.ok none` when the loop falls through without returning (Python returns
`None`, possible only when `max_retries < 1`), and otherwise
`.ok (some (obj_key, new_key, success, attemptsUsed))` where `attemptsUsed`
is the attempt number at which the function returned. -/
def attemptLoop (obj_key new_key : String) (f : Nat → AttemptRes)
    (max_retries : Nat) : List Nat → Except Unit (Option (String × String × Bool × Nat))
  | [] => .ok none
  | a :: rest =>
    match f a with
    | .ok => .ok (some (obj_key, new_key, true, a))
    | .clientError =>
      if a = max_retries then .ok (some (obj_key, new_key, false, a))
      else attemptLoop obj_key new_key f max_retries rest
    | .other => .error ()

/-- Embedding of `transfer_object_streaming` (lines 24-61): computes
`new_key` once, then runs the attempts `1, ..., max_retries` in order. -/
def transfer_object_streaming (obj_key : String) (f : Nat → AttemptRes)
    (max_retries : Nat) : Except Unit (Option (String × String × Bool × Nat)) :=
  attemptLoop obj_key (mapKey obj_key) f max_retries (List.range' 1 max_retries)

/-- Modelled from the spec: the Source Enumerator. The enumeration itself
(the `list_objects_v2` paginator with `PageSize`, lines 103-107) is carried
out by the boto3 library, which is not code under `src/`; per the spec
contract it issues successive listing requests each bounded to `pageSize`
keys, following the continuation-token protocol until the key set is
exhausted, and an empty bucket yields zero pages. -/
def enumeratePages (pageSize : Nat) (keys : List String) : List (List String) :=
  if hstop : pageSize = 0 ∨ keys = [] then []
  else keys.take pageSize :: enumeratePages pageSize (keys.drop pageSize)
termination_by keys.length
decreasing_by
  simp only [not_or] at hstop
  have h1 : 0 < pageSize := Nat.pos_of_ne_zero hstop.1
  have h2 : 0 < keys.length := List.length_pos.mpr hstop.2
  simp only [List.length_drop]
  omega

/-- The observable result of one run of `main`: whether an uncaught exception
aborted the run, and the records appended to the two sinks
(`transfered_all_aws_files.txt` and `failed_transfers.txt`), each record
being the pair `(orig_key, new_key)` of line 140 resp. line 142. -/
structure RunResult where
  fatal : Bool
  succeededSink : List (String × String)
  failedSink : List (String × String)
deriving DecidableEq

/-- The result-collection loop of `main` (lines 137-142): for each submitted
future, `future.result()` either re-raises a worker's escaped exception
(aborting the run before any further sink write; unpacking a `None` result
would likewise raise) or yields an outcome that is appended to the sink
matching its `success` flag. Workers are submitted with `max_retries = 3`
(line 132). -/
def collect (beh : String → Nat → AttemptRes) : List String → RunResult
  | [] => ⟨false, [], []⟩
  | k :: rest =>
    match transfer_object_streaming k (beh k) 3 with
    | .error _ => ⟨true, [], []⟩
    | .ok none => ⟨true, [], []⟩
    | .ok (some (o, n, true, _)) =>
      let r := collect beh rest
      ⟨r.fatal, (o, n) :: r.succeededSink, r.failedSink⟩
    | .ok (some (o, n, false, _)) =>
      let r := collect beh rest
      ⟨r.fatal, r.succeededSink, (o, n) :: r.failedSink⟩

/-- The transfer phase of `main` (lines 100-148), as a function of the pages
yielded by the paginator, whether the enumeration raises mid-run
(`enumFatal`), and the behavior `beh` of the stores per key and attempt.
One task is submitted per key of each page's `Contents` (a page without
`Contents` contributes no keys and is skipped). When enumeration raises
inside the `with` block, the executor shutdown drains the in-flight workers
but the exception then propagates past the collection loop, so nothing is
ever appended to either sink. -/
def mainRun (pages : List (List String)) (enumFatal : Bool)
    (beh : String → Nat → AttemptRes) : RunResult :=
  if enumFatal then ⟨true, [], []⟩ else collect beh pages.flatten

/-- Operations an object-store client can be asked to perform. -/
inductive S3Op where
  | headBucket : S3Op
  | listObjectsPage : S3Op
  | getObject : String → S3Op
  | putObject : String → S3Op
  | deleteObject : String → S3Op
deriving DecidableEq

/-- Read-only operations: everything except a put or a delete. -/
def S3Op.isRead : S3Op → Bool
  | .putObject _ => false
  | .deleteObject _ => false
  | _ => true

/-- Calls issued to the SOURCE client by the retry loop: every attempt that is
reached performs one `get_object` on the source client (line 45); the upload
of line 50 goes to the destination client, never the source. -/
def attemptSrcTrace (obj_key : String) (f : Nat → AttemptRes)
    (max_retries : Nat) : List Nat → List S3Op
  | [] => []
  | a :: rest =>
    S3Op.getObject obj_key ::
      (match f a with
       | .ok => []
       | .clientError =>
         if a = max_retries then []
         else attemptSrcTrace obj_key f max_retries rest
       | .other => [])

/-- All calls issued to the source client over a run of `main`: one
`head_bucket` from the connectivity probe (line 81), one listing request per
page fetched (plus the failing one when enumeration aborts), and the
per-attempt `get_object` calls of every submitted transfer. -/
def sourceTrace (pages : List (List String)) (enumFatal : Bool)
    (beh : String → Nat → AttemptRes) : List S3Op :=
  S3Op.headBucket ::
    (pages.map (fun _ => S3Op.listObjectsPage) ++
      (if enumFatal then [S3Op.listObjectsPage] else []) ++
      pages.flatten.flatMap (fun k => attemptSrcTrace k (beh k) 3 (List.range' 1 3)))

/-- A synthetic store of 25 distinct object keys, used to instantiate the
pagination property on a concrete input. -/
def sampleKeys : List String :=
  ["k01", "k02", "k03", "k04", "k05", "k06", "k07", "k08", "k09", "k10",
   "k11", "k12", "k13", "k14", "k15", "k16", "k17", "k18", "k19", "k20",
   "k21", "k22", "k23", "k24", "k25"]

/-! ### Lemmas about the key mapper -/

/-- If `old` does not occur in `s`, `replaceFirst` leaves `s` unchanged. -/
theorem replaceFirst_of_not_infix (old new : List Char) :
    ∀ s : List Char, ¬ old <:+: s → replaceFirst old new s = s := by
  intro s
  induction s with
  | nil =>
    intro h
    match old with
    | [] => exact absurd (List.infix_refl []) h
    | c :: old2 => simp [replaceFirst, List.isPrefixOf]
  | cons c rest ih =>
    intro h
    rw [ List.infix_cons_iff] at h
    push_neg at h
    obtain ⟨h1, h2⟩ := h
    have hp : ¬ old.isPrefixOf (c :: rest) := by
      intro hc
      exact h1 ( List.isPrefixOf_iff_prefix.mp hc)
    simp only [replaceFirst, if_neg hp]
    rw [ih h2]

/-- If `old` occurs in `s`, `replaceFirst` replaces exactly the leftmost
occurrence of `old` with `new`. -/
theorem replaceFirst_first_occ (old new : List Char) (hne : old ≠ []) :
    ∀ s : List Char, old <:+: s →
      ∃ a b, s = a ++ (old ++ b) ∧ replaceFirst old new s = a ++ (new ++ b) ∧
        ∀ c d, s = c ++ (old ++ d) → a.length ≤ c.length := by
  intro s
  induction s with
  | nil =>
    intro h
    rw [List.infix_nil] at h
    exact absurd h hne
  | cons x rest ih =>
    intro h
    by_cases hp : old.isPrefixOf (x :: rest)
    · have hp2 : old <+: x :: rest := List.isPrefixOf_iff_prefix.mp hp
      obtain ⟨t, ht⟩ := hp2
      refine ⟨[], t, by simp [← ht], ?_, fun c d _ => by simp⟩
      simp only [replaceFirst, if_pos hp, List.nil_append]
      rw [← ht, List.drop_left]
    · have hp2 : ¬ old <+: x :: rest := fun hc => hp ( List.isPrefixOf_iff_prefix.mpr hc)
      have h2 : old <:+: rest := by
        rcases ( List.infix_cons_iff).mp h with h3 | h3
        · exact absurd h3 hp2
        · exact h3
      obtain ⟨a, b, hs, hr, hmin⟩ := ih h2
      refine ⟨x :: a, b, by simp [hs], ?_, ?_⟩
      · simp only [replaceFirst, if_neg hp]
        rw [hr]
        simp
      · intro c d hcd
        match c with
        | [] =>
          exact absurd ⟨d, by simpa using hcd.symm⟩ hp2
        | y :: c2 =>
          have hrest : rest = c2 ++ (old ++ d) := by
            have h4 : x = y ∧ rest = c2 ++ (old ++ d) := by simpa using hcd
            exact h4.2
          have := hmin c2 d hrest
          simp only [List.length_cons]
          omega

/-! ### Lemmas about the retry loop -/

/-- A `Succeeded` outcome can only come from the first successful attempt:
its attempt number lies in the range run so far, that attempt's body
completed, and every earlier attempt raised `ClientError`. -/
theorem attemptLoop_true (k nk : String) (f : Nat → AttemptRes) (m : Nat) :
    ∀ n s o nn a,
      attemptLoop k nk f m (List.range' s n) = .ok (some (o, nn, true, a)) →
      o = k ∧ nn = nk ∧ s ≤ a ∧ a < s + n ∧ f a = .ok ∧
        ∀ b, s ≤ b → b < a → f b = .clientError := by
  intro n
  induction n with
  | zero =>
    intro s o nn a h
    simp [attemptLoop] at h
  | succ n ih =>
    intro s o nn a h
    rw [List.range'_succ] at h
    simp only [attemptLoop] at h
    cases hf : f s with
    | ok =>
      rw [hf] at h
      simp only [Except.ok.injEq, Option.some.injEq, Prod.mk.injEq] at h
      obtain ⟨ho, hn, _, ha⟩ := h
      refine ⟨ho.symm, hn.symm, by omega, by omega, ?_, ?_⟩
      · rw [← ha]; exact hf
      · intro b hb1 hb2; omega
    | clientError =>
      rw [hf] at h
      by_cases hs : s = m
      · simp only [if_pos hs, Except.ok.injEq, Option.some.injEq, Prod.mk.injEq] at h
        exact absurd h.2.2.1 (by simp)
      · simp only [if_neg hs] at h
        obtain ⟨ho, hn, h1, h2, h3, h4⟩ := ih (s + 1) o nn a h
        refine ⟨ho, hn, by omega, by omega, h3, ?_⟩
        intro b hb1 hb2
        rcases Nat.eq_or_lt_of_le hb1 with rfl | hb3
        · exact hf
        · exact h4 b hb3 hb2
    | other =>
      rw [hf] at h
      simp at h

/-- A `Failed` outcome can only come from the branch that fires on the very
last permitted attempt: its recorded attempt number is `max_retries`, and —
when the attempt range covers `s, ..., m` — every attempt in that range
raised `ClientError`. -/
theorem attemptLoop_false (k nk : String) (f : Nat → AttemptRes) (m : Nat) :
    ∀ n s o nn a, s + n = m + 1 →
      attemptLoop k nk f m (List.range' s n) = .ok (some (o, nn, false, a)) →
      o = k ∧ nn = nk ∧ a = m ∧ ∀ b, s ≤ b → b ≤ m → f b = .clientError := by
  intro n
  induction n with
  | zero =>
    intro s o nn a hinv h
    simp [attemptLoop] at h
  | succ n ih =>
    intro s o nn a hinv h
    rw [List.range'_succ] at h
    simp only [attemptLoop] at h
    cases hf : f s with
    | ok =>
      rw [hf] at h
      simp only [Except.ok.injEq, Option.some.injEq, Prod.mk.injEq] at h
      exact absurd h.2.2.1 (by simp)
    | clientError =>
      rw [hf] at h
      by_cases hs : s = m
      · simp only [if_pos hs, Except.ok.injEq, Option.some.injEq, Prod.mk.injEq] at h
        obtain ⟨ho, hn, _, ha⟩ := h
        refine ⟨ho.symm, hn.symm, by omega, ?_⟩
        intro b hb1 hb2
        have : b = s := by omega
        rw [this]; exact hf
      · simp only [if_neg hs] at h
        obtain ⟨ho, hn, ha, h4⟩ := ih (s + 1) o nn a (by omega) h
        refine ⟨ho, hn, ha, ?_⟩
        intro b hb1 hb2
        rcases Nat.eq_or_lt_of_le hb1 with rfl | hb3
        · exact hf
        · exact h4 b hb3 hb2
    | other =>
      rw [hf] at h
      simp at h

/-- When no attempt raises a non-ClientError exception, the loop over a
nonempty range ending at `max_retries` always returns an outcome, and that
outcome carries the worker's own keys. -/
theorem attemptLoop_total (k nk : String) (f : Nat → AttemptRes) (m : Nat)
    (hf : ∀ j, f j ≠ .other) :
    ∀ n s, 0 < n → s + n = m + 1 →
      ∃ x a, attemptLoop k nk f m (List.range' s n) = .ok (some (k, nk, x, a)) := by
  intro n
  induction n with
  | zero => intro s h0; omega
  | succ n ih =>
    intro s h0 hinv
    rw [List.range'_succ]
    simp only [attemptLoop]
    cases hfs : f s with
    | ok => exact ⟨true, s, rfl⟩
    | clientError =>
      by_cases hs : s = m
      · exact ⟨false, s, by simp [if_pos hs]⟩
      · have hn : 0 < n := by omega
        obtain ⟨x, a, hx⟩ := ih (s + 1) hn (by omega)
        exact ⟨x, a, by simp [if_neg hs, hx]⟩
    | other => exact absurd hfs (hf s)

/-- When every attempt in the covered range raises `ClientError`, the loop
returns `Failed` with attempt number `max_retries`. -/
theorem attemptLoop_allFail (k nk : String) (f : Nat → AttemptRes) (m : Nat) :
    ∀ n s, 0 < n → s + n = m + 1 →
      (∀ b, s ≤ b → b ≤ m → f b = .clientError) →
      attemptLoop k nk f m (List.range' s n) = .ok (some (k, nk, false, m)) := by
  intro n
  induction n with
  | zero => intro s h0; omega
  | succ n ih =>
    intro s h0 hinv hall
    rw [List.range'_succ]
    simp only [attemptLoop]
    have hfs : f s = .clientError := hall s (by omega) (by omega)
    rw [hfs]
    by_cases hs : s = m
    · simp [if_pos hs, hs]
    · have hn : 0 < n := by omega
      rw [if_neg hs]
      exact ih (s + 1) hn (by omega) (fun b hb1 hb2 => hall b (by omega) hb2)

/-- If the first attempt that does not raise `ClientError` raises an
exception of another type, the loop propagates it: no outcome is returned. -/
theorem attemptLoop_escape (k nk : String) (f : Nat → AttemptRes) (m : Nat) :
    ∀ n s, s + n = m + 1 →
      ∀ j, s ≤ j → j ≤ m → f j = .other →
      (∀ b, s ≤ b → b < j → f b = .clientError) →
      attemptLoop k nk f m (List.range' s n) = .error () := by
  intro n
  induction n with
  | zero => intro s hinv j h1 h2; omega
  | succ n ih =>
    intro s hinv j h1 h2 hj hpre
    rw [List.range'_succ]
    simp only [attemptLoop]
    rcases Nat.eq_or_lt_of_le h1 with rfl | hlt
    · rw [hj]
    · have hfs : f s = .clientError := hpre s (by omega) hlt
      rw [hfs]
      have hs : s ≠ m := by omega
      rw [if_neg hs]
      exact ih (s + 1) (by omega) j (by omega) h2 hj
        (fun b hb1 hb2 => hpre b (by omega) hb2)

/-- `transfer_object_streaming` with the in-code retry limit 3 always
produces an outcome for its own key when no non-ClientError exception
occurs. -/
theorem transfer_total3 (k : String) (f : Nat → AttemptRes)
    (hf : ∀ j, f j ≠ .other) :
    ∃ x a, transfer_object_streaming k f 3 = .ok (some (k, mapKey k, x, a)) :=
  attemptLoop_total k (mapKey k) f 3 hf 3 1 (by omega) (by omega)

/-! ### Lemmas about the collection loop and the enumerator -/

/-- When no worker escapes with a non-ClientError exception, the collection
loop completes and the source keys of the two sinks, taken together, are a
permutation of the submitted keys. -/
theorem collect_perm (beh : String → Nat → AttemptRes) :
    ∀ keys : List String, (∀ k ∈ keys, ∀ j, beh k j ≠ .other) →
      (collect beh keys).fatal = false ∧
      ((collect beh keys).succeededSink.map Prod.fst ++
        (collect beh keys).failedSink.map Prod.fst).Perm keys := by
  intro keys
  induction keys with
  | nil => intro hf; exact ⟨rfl, by simp [collect]⟩
  | cons k rest ih =>
    intro hf
    have hk : ∀ j, beh k j ≠ .other := hf k (by simp)
    obtain ⟨x, a, hx⟩ := transfer_total3 k (beh k) hk
    obtain ⟨ih1, ih2⟩ := ih (fun k2 hk2 j => hf k2 (by simp [hk2]) j)
    cases x
    · simp only [collect, hx]
      refine ⟨ih1, ?_⟩
      simp only [List.map_cons]
      exact List.perm_middle.trans (List.Perm.cons k ih2)
    · simp only [collect, hx]
      refine ⟨ih1, ?_⟩
      simp only [List.map_cons, List.cons_append]
      exact List.Perm.cons k ih2

/-- If any submitted key's worker escaped with a non-ClientError exception,
collecting that worker's result re-raises it and the run aborts. -/
theorem collect_fatal_of_error (beh : String → Nat → AttemptRes) :
    ∀ keys : List String, ∀ k ∈ keys,
      transfer_object_streaming k (beh k) 3 = .error () →
      (collect beh keys).fatal = true := by
  intro keys
  induction keys with
  | nil => intro k h; simp at h
  | cons k0 rest ih =>
    intro k hk herr
    rcases List.mem_cons.mp hk with rfl | hk2
    · simp [collect, herr]
    · cases htr : transfer_object_streaming k0 (beh k0) 3 with
      | error e => cases e; simp [collect, htr]
      | ok v =>
        match v with
        | none => simp [collect, htr]
        | some (o, n, true, a) => simpa [collect, htr] using ih k hk2 herr
        | some (o, n, false, a) => simpa [collect, htr] using ih k hk2 herr

/-- The pages of the spec-modelled enumerator concatenate back to the full
key set: no duplicates are introduced and no key is omitted. -/
theorem flatten_enumeratePages (pageSize : Nat) (hp : pageSize ≠ 0) :
    ∀ keys : List String, (enumeratePages pageSize keys).flatten = keys := by
  have hgen : ∀ n (keys : List String), keys.length = n →
      (enumeratePages pageSize keys).flatten = keys := by
    intro n
    induction n using Nat.strong_induction_on with
    | _ n ih =>
      intro keys hl
      rw [enumeratePages]
      by_cases hk : keys = []
      · simp [hk]
      · rw [dif_neg (by simp [hp, hk])]
        rw [List.flatten_cons]
        have hlen : (keys.drop pageSize).length < n := by
          rw [← hl]
          simp only [List.length_drop]
          have h1 : 0 < keys.length := List.length_pos.mpr hk
          have h2 : 0 < pageSize := Nat.pos_of_ne_zero hp
          omega
        rw [ih (keys.drop pageSize).length hlen (keys.drop pageSize) rfl]
        exact List.take_append_drop pageSize keys
  intro keys
  exact hgen keys.length keys rfl

/-- Every operation the retry loop issues to the source client is a
`get_object` for the worker's own key. -/
theorem mem_attemptSrcTrace (k : String) (f : Nat → AttemptRes) (m : Nat) :
    ∀ l op, op ∈ attemptSrcTrace k f m l → op = S3Op.getObject k := by
  intro l
  induction l with
  | nil => intro op h; simp [attemptSrcTrace] at h
  | cons a rest ih =>
    intro op h
    simp only [attemptSrcTrace] at h
    rcases List.mem_cons.mp h with h | h
    · exact h
    · cases hf : f a with
      | ok => rw [hf] at h; simp at h
      | clientError =>
        rw [hf] at h
        by_cases ha : a = m
        · rw [if_pos ha] at h; simp at h
        · rw [if_neg ha] at h; exact ih op h
      | other => rw [hf] at h; simp at h

/-! ### The claims -/

/-- C1: Partition property — for every run that completes without a fatal
error (no worker escapes with a non-ClientError exception), the run does not
abort, `count(Succeeded) + count(Failed)` equals the count of enumerated
objects, and when the enumerated keys are distinct each enumerated key
appears exactly once across the two sinks combined (so in exactly one sink,
never twice). -/
theorem partition_property (pages : List (List String))
    (beh : String → Nat → AttemptRes)
    (hnf : ∀ k ∈ pages.flatten, ∀ j, beh k j ≠ .other) :
    (mainRun pages false beh).fatal = false ∧
    (mainRun pages false beh).succeededSink.length +
      (mainRun pages false beh).failedSink.length = pages.flatten.length ∧
    (pages.flatten.Nodup → ∀ k ∈ pages.flatten,
      ((mainRun pages false beh).succeededSink.map Prod.fst).count k +
        ((mainRun pages false beh).failedSink.map Prod.fst).count k = 1) := by
  obtain ⟨h1, h2⟩ := collect_perm beh pages.flatten hnf
  have hmain : mainRun pages false beh = collect beh pages.flatten := rfl
  refine ⟨by rw [hmain]; exact h1, ?_, ?_⟩
  · have h3 := h2.length_eq
    simp only [List.length_append, List.length_map] at h3
    rw [hmain]
    exact h3
  · intro hnd k hk
    rw [hmain]
    have hc := h2.count_eq k
    rw [List.count_append] at hc
    rw [hc]
    exact List.count_eq_one_of_mem hnd hk

/-- C1 witness: a concrete two-page run with always-succeeding stores yields
two sink records in total. -/
theorem partition_property_witness :
    (mainRun [["a"], ["b"]] false (fun _ _ => .ok)).succeededSink.length +
      (mainRun [["a"], ["b"]] false (fun _ _ => .ok)).failedSink.length = 2 := by
  have h := partition_property [["a"], ["b"]] (fun _ _ => .ok)
    (fun k hk j => by simp)
  simpa using h.2.1

/-- C2: Retry bound — for every positive `max_retries`: a `Succeeded`
outcome carries `attemptsUsed ≤ max_retries`, arises at the first attempt
whose get-then-put body completes, with every earlier attempt a
store-reported (`ClientError`) failure; a `Failed` outcome carries
`attemptsUsed = max_retries` and arises only after every one of the
`max_retries` sequential attempts raised a store-reported error; and when
all attempts fail with store-reported errors — of any class, retried
identically — the worker does return `Failed` with
`attemptsUsed = max_retries`. -/
theorem retry_bound (k : String) (f : Nat → AttemptRes) (m : Nat)
    (hm : 0 < m) :
    (∀ o nn a, transfer_object_streaming k f m = .ok (some (o, nn, true, a)) →
      o = k ∧ nn = mapKey k ∧ 1 ≤ a ∧ a ≤ m ∧ f a = .ok ∧
        ∀ b, 1 ≤ b → b < a → f b = .clientError) ∧
    (∀ o nn a, transfer_object_streaming k f m = .ok (some (o, nn, false, a)) →
      o = k ∧ nn = mapKey k ∧ a = m ∧
        ∀ b, 1 ≤ b → b ≤ m → f b = .clientError) ∧
    ((∀ b, 1 ≤ b → b ≤ m → f b = .clientError) →
      transfer_object_streaming k f m = .ok (some (k, mapKey k, false, m))) := by
  refine ⟨?_, ?_, ?_⟩
  · intro o nn a h
    obtain ⟨ho, hn, h1, h2, h3, h4⟩ :=
      attemptLoop_true k (mapKey k) f m m 1 o nn a h
    exact ⟨ho, hn, h1, by omega, h3, h4⟩
  · intro o nn a h
    exact attemptLoop_false k (mapKey k) f m m 1 o nn a (by omega) h
  · intro hall
    exact attemptLoop_allFail k (mapKey k) f m m 1 hm (by omega) hall

/-- C2 witness: with stores failing every attempt and `max_retries = 2`, the
worker returns `Failed` at attempt 2. -/
theorem retry_bound_witness :
    transfer_object_streaming "a" (fun _ => .clientError) 2 =
      .ok (some ("a", mapKey "a", false, 2)) :=
  (retry_bound "a" (fun _ => .clientError) 2 (by omega)).2.2
    (fun b h1 h2 => rfl)

/-- C3 counterexample: with one key `"k"` enumerated and then a fatal
enumeration error, the run aborts with BOTH sinks empty — the enumerated key
receives an outcome in neither sink, contradicting the claim that every key
enumerated before the fatal error is still reported in exactly one sink. -/
theorem enum_fatal_counterexample :
    "k" ∈ ([["k"]] : List (List String)).flatten ∧
    (mainRun [["k"]] true (fun _ _ => .ok)).fatal = true ∧
    (mainRun [["k"]] true (fun _ _ => .ok)).succeededSink = [] ∧
    (mainRun [["k"]] true (fun _ _ => .ok)).failedSink = [] :=
  ⟨by simp, rfl, rfl, rfl⟩

/-- C3 amended: if enumeration fails mid-run, the run aborts rather than
proceeding with a partial object set and no outcomes are fabricated for
unlisted objects; however, NO outcome is reported in either sink for any
object, including those enumerated before the fatal error (the exception
propagates past the result-collection loop, so both sinks stay empty). -/
theorem enum_fatal_aborts (pages : List (List String))
    (beh : String → Nat → AttemptRes) :
    mainRun pages true beh = ⟨true, [], []⟩ := rfl

/-- C4: Key-mapper prefix-rewrite — the mapping replaces exactly the
leftmost occurrence of "dentons_01" with "bl_01"; when the substring is
absent the key is returned unchanged (no error); and the two concrete
examples of the spec hold. -/
theorem key_mapper_prefix_rewrite :
    (∀ k : List Char, ¬ dentons <:+: k → mapKeyL k = k) ∧
    (∀ k : List Char, dentons <:+: k →
      ∃ a b, k = a ++ (dentons ++ b) ∧ mapKeyL k = a ++ (bl ++ b) ∧
        ∀ c d, k = c ++ (dentons ++ d) → a.length ≤ c.length) ∧
    mapKeyL "dentons_01/a/b.txt".toList = "bl_01/a/b.txt".toList ∧
    mapKeyL "other/x.txt".toList = "other/x.txt".toList := by
  refine ⟨fun k h => replaceFirst_of_not_infix dentons bl k h,
    fun k h => replaceFirst_first_occ dentons bl (by decide) k h,
    by decide, by decide⟩

/-- C4 witness: the absent-substring clause applied to the concrete key
"other/x.txt". -/
theorem key_mapper_prefix_rewrite_witness :
    mapKeyL "other/x.txt".toList = "other/x.txt".toList :=
  key_mapper_prefix_rewrite.1 ("other/x.txt".toList) (by decide)

/-- C5 counterexample: the mapping is NOT idempotent — on the key
"dentons_01dentons_01", which contains the substring twice, a second
application rewrites the second occurrence and changes the result. -/
theorem key_mapper_not_idempotent :
    mapKeyL (mapKeyL "dentons_01dentons_01".toList) ≠
      mapKeyL "dentons_01dentons_01".toList := by decide

/-- C5 amended: the key mapping is a deterministic pure function of the
source key (equal inputs give equal outputs), and it is idempotent exactly
on keys whose image contains no further occurrence of "dentons_01" — in
particular on every key with at most one occurrence; it is not idempotent in
general. -/
theorem key_mapper_deterministic (k : List Char) :
    mapKeyL k = mapKeyL k ∧
    (¬ dentons <:+: mapKeyL k → mapKeyL (mapKeyL k) = mapKeyL k) :=
  ⟨rfl, fun h => replaceFirst_of_not_infix dentons bl (mapKeyL k) h⟩

/-- C5 witness: idempotence instantiated on "dentons_01/a.txt", whose image
"bl_01/a.txt" contains no further occurrence. -/
theorem key_mapper_deterministic_witness :
    mapKeyL (mapKeyL "dentons_01/a.txt".toList) =
      mapKeyL "dentons_01/a.txt".toList :=
  (key_mapper_deterministic ("dentons_01/a.txt".toList)).2 (by decide)

/-- C6: Empty-bucket behavior — enumerating a bucket with zero objects
yields zero pages, and the run on that enumeration completes normally
(`fatal = false`, distinguishable from the aborted state) with zero
outcomes in either sink. -/
theorem empty_bucket (pageSize : Nat) (beh : String → Nat → AttemptRes) :
    enumeratePages pageSize [] = [] ∧
    mainRun (enumeratePages pageSize []) false beh = ⟨false, [], []⟩ := by
  have h : enumeratePages pageSize ([] : List String) = [] := by
    rw [enumeratePages]; simp
  exact ⟨h, by rw [h]; rfl⟩

/-- C7: Pagination completeness — for a synthetic store of 25 distinct keys
and page size 10, enumeration yields exactly 3 pages of sizes 10, 10, 5,
and the concatenation of the pages contains each of the 25 keys exactly
once. -/
theorem pagination_completeness (keys : List String)
    (h25 : keys.length = 25) (hnd : keys.Nodup) :
    (enumeratePages 10 keys).length = 3 ∧
    (enumeratePages 10 keys).map List.length = [10, 10, 5] ∧
    (enumeratePages 10 keys).flatten = keys ∧
    ∀ k ∈ keys, (enumeratePages 10 keys).flatten.count k = 1 := by
  have hk1 : keys ≠ [] := by
    intro h; rw [h] at h25; simp at h25
  have e1 : enumeratePages 10 keys =
      keys.take 10 :: enumeratePages 10 (keys.drop 10) := by
    rw [enumeratePages]; rw [dif_neg (by simp [hk1])]
  have hd1 : (keys.drop 10).length = 15 := by
    simp [List.length_drop, h25]
  have hk2 : keys.drop 10 ≠ [] := by
    intro h; rw [h] at hd1; simp at hd1
  have e2 : enumeratePages 10 (keys.drop 10) =
      (keys.drop 10).take 10 :: enumeratePages 10 ((keys.drop 10).drop 10) := by
    rw [enumeratePages]; rw [dif_neg (by simp [hk2])]
  have hd2 : ((keys.drop 10).drop 10).length = 5 := by
    simp [List.length_drop, h25]
  have hk3 : (keys.drop 10).drop 10 ≠ [] := by
    intro h; rw [h] at hd2; simp at hd2
  have e3 : enumeratePages 10 ((keys.drop 10).drop 10) =
      ((keys.drop 10).drop 10).take 10 ::
        enumeratePages 10 (((keys.drop 10).drop 10).drop 10) := by
    rw [enumeratePages]; rw [dif_neg (by simp [hk3, h25])]
  have hd3 : ((keys.drop 10).drop 10).drop 10 = [] := by
    apply List.drop_eq_nil_of_le
    omega
  have e4 : enumeratePages 10 ([] : List String) = [] := by
    rw [enumeratePages]; simp
  have hflat := flatten_enumeratePages 10 (by omega) keys
  refine ⟨?_, ?_, hflat, ?_⟩
  · rw [e1, e2, e3, hd3, e4]; rfl
  · rw [e1, e2, e3, hd3, e4]
    simp [List.length_take, h25, hd1, hd2]
  · intro k hk
    rw [hflat]
    exact List.count_eq_one_of_mem hnd hk

/-- C7 witness: the page-size profile on a concrete synthetic store of 25
distinct keys. -/
theorem pagination_completeness_witness :
    (enumeratePages 10 sampleKeys).map List.length = [10, 10, 5] :=
  (pagination_completeness sampleKeys (by rfl) (by decide)).2.1

/-- C9: the engine is read-only toward the source bucket — every operation a
run ever issues against the source store client is a `head_bucket`, a
listing request, or a `get_object`; no put or delete is ever issued on the
source. -/
theorem source_read_only (pages : List (List String)) (enumFatal : Bool)
    (beh : String → Nat → AttemptRes) :
    ∀ op ∈ sourceTrace pages enumFatal beh, op.isRead = true := by
  intro op hop
  simp only [sourceTrace, List.mem_cons] at hop
  rcases hop with rfl | hop
  · rfl
  · rw [List.mem_append] at hop
    rcases hop with hop | hop
    · rw [List.mem_append] at hop
      rcases hop with hop | hop
      · obtain ⟨p, _, hp⟩ := List.mem_map.mp hop
        rw [← hp]; rfl
      · by_cases he : enumFatal
        · rw [if_pos he] at hop
          simp only [List.mem_singleton] at hop
          rw [hop]; rfl
        · rw [if_neg he] at hop
          simp at hop
    · obtain ⟨k, _, hk⟩ := List.mem_flatMap.mp hop
      rw [mem_attemptSrcTrace k (beh k) 3 _ op hk]
      rfl

/-- C9 witness: the read-only fact applied to the probe operation of a
concrete run. -/
theorem source_read_only_witness :
    S3Op.isRead S3Op.headBucket = true :=
  source_read_only [["a"]] false (fun _ _ => .ok) S3Op.headBucket
    (by simp [sourceTrace])

/-- C10: only `ClientError` is absorbed and retried — if, for some submitted
key, the first attempt not raising `ClientError` raises an exception of any
other type, `transfer_object_streaming` produces no outcome (the exception
escapes), and the run aborts when that worker's result is collected. -/
theorem non_clienterror_escapes (pages : List (List String))
    (beh : String → Nat → AttemptRes) (k : String)
    (hk : k ∈ pages.flatten)
    (j : Nat) (hj1 : 1 ≤ j) (hj3 : j ≤ 3) (hjo : beh k j = .other)
    (hpre : ∀ i, 1 ≤ i → i < j → beh k i = .clientError) :
    transfer_object_streaming k (beh k) 3 = .error () ∧
    (mainRun pages false beh).fatal = true := by
  have htr : transfer_object_streaming k (beh k) 3 = .error () :=
    attemptLoop_escape k (mapKey k) (beh k) 3 3 1 (by omega) j hj1 hj3 hjo hpre
  exact ⟨htr, collect_fatal_of_error beh pages.flatten k hk htr⟩

/-- C10 witness: a run whose single worker raises a non-ClientError on its
first attempt aborts. -/
theorem non_clienterror_escapes_witness :
    (mainRun [["a"]] false (fun _ _ => .other)).fatal = true :=
  (non_clienterror_escapes [["a"]] (fun _ _ => .other) "a" (by simp) 1
    (by omega) (by omega) rfl (fun i h1 h2 => absurd h2 (by omega))).2

end TransferApp
